import Mathlib

/-!
Verification development for the aggregation and classification engine of the
Pehchaan index dashboard (the functions of `src/lib/data-utils.ts`, referenced
through `src/components/IndiaMap.tsx`).

Modelling conventions for the shallow embedding:

* JavaScript numbers holding whole-number counts are modelled as `Nat`.
* JavaScript floating-point ratio comparisons `num / den > t` are modelled exactly
  over `Rat` as `t * den < num`.  This also reproduces the IEEE semantics of the
  source for `den = 0`: `num / 0` is `Infinity` when `num > 0` (so the comparison
  holds for the positive thresholds used here, matching `t * 0 = 0 < num`) and
  `NaN` when `num = 0` (so the comparison fails, matching `¬ (0 < 0)`).
* `Array.prototype.sort` (required to be stable since ES2019) with a consistent
  comparator `cmp` is modelled by the structurally recursive stable insertion sort
  `sortStable le` with `le a b` standing for `cmp a b ≤ 0`.  The stable sorted
  permutation with respect to a total transitive `le` is unique, so any stable
  sorting algorithm is modelled exactly.
* `Math.floor (len * 0.33)` and `Math.floor (len * 0.66)` are modelled as
  `len * 33 / 100` and `len * 66 / 100` in `Nat`; rounding the literals `0.33`
  and `0.66` to binary doubles does not change these floors for any list length
  below two million, far beyond the workload documented for this engine.
* `Number.prototype.toFixed` is modelled as exact half-up decimal rounding of the
  underlying rational value and `Number.prototype.toString` by `natToString`;
  the binary-rounding noise of doubles is abstracted away.
-/

namespace Pehchaan

/-- The `low | medium | high` classification attached to states and districts. -/
inductive Intensity
  | low
  | medium
  | high
deriving DecidableEq, Repr

/-- Alert / recommendation severity (`'high' | 'medium'` in the source). -/
inductive Severity
  | high
  | medium
deriving DecidableEq, Repr

/-- One normalized input row (`AadhaarRecord` of `src/lib/types.ts`), with the
three age-bracket counts well formed as non-negative integers per the data model. -/
structure AadhaarRecord where
  Month : String
  State : String
  District : String
  Age_0_5 : Nat
  Age_5_17 : Nat
  Age_18_plus : Nat
deriving DecidableEq, Repr

/-- A sub-region (district) summary (`DistrictData` of `src/lib/types.ts`). -/
structure DistrictData where
  district : String
  state : String
  totalUpdates : Nat
  age0_5 : Nat
  age5_17 : Nat
  age18Plus : Nat
  dominantAgeGroup : String
  intensity : Intensity
deriving DecidableEq, Repr

/-- A region (state) summary (`StateData` of `src/lib/types.ts`). -/
structure StateData where
  state : String
  totalUpdates : Nat
  age0_5 : Nat
  age5_17 : Nat
  age18Plus : Nat
  districts : List DistrictData
  dominantAgeGroup : String
  intensity : Intensity
deriving DecidableEq, Repr

/-- A demographic alert as produced by `getDemographicAlerts`. -/
structure Alert where
  state : String
  district : String
  alert : String
  severity : Severity
deriving DecidableEq, Repr

/-- A recommendation (`Recommendation` of `src/lib/types.ts`). -/
structure Recommendation where
  severity : Severity
  location : String
  month : String
  reasons : List String
  actions : List String
  expectedImpact : String
deriving DecidableEq, Repr

/-! ### A stable sort, modelling `Array.prototype.sort` -/

/-- Stable insertion step: `x` is placed after every element `y` with `le y x`. -/
def insLe (le : α → α → Bool) (x : α) : List α → List α
  | [] => [x]
  | y :: ys => if le y x then y :: insLe le x ys else x :: y :: ys

/-- Stable insertion sort, the model of `Array.prototype.sort` with a consistent
comparator; elements are taken left to right, so equal elements keep their order. -/
def sortStable (le : α → α → Bool) (l : List α) : List α :=
  l.foldl (fun acc x => insLe le x acc) []

theorem sortStable_append_singleton (le : α → α → Bool) (l : List α) (x : α) :
    sortStable le (l ++ [x]) = insLe le x (sortStable le l) := by
  simp [sortStable, List.foldl_append]

theorem mem_insLe (le : α → α → Bool) (x a : α) (s : List α) :
    a ∈ insLe le x s ↔ a = x ∨ a ∈ s := by
  induction s with
  | nil => simp [insLe]
  | cons y ys ih =>
    unfold insLe
    by_cases h : le y x = true
    · simp only [h, if_true, List.mem_cons, ih]
      tauto
    · simp [h]

theorem insLe_perm (le : α → α → Bool) (x : α) (s : List α) :
    (insLe le x s).Perm (x :: s) := by
  induction s with
  | nil => simp [insLe]
  | cons y ys ih =>
    by_cases h : le y x = true
    · simp only [insLe, h, if_true]
      exact (ih.cons y).trans (List.Perm.swap x y ys)
    · simp [insLe, h]

theorem sortStable_perm (le : α → α → Bool) (l : List α) :
    (sortStable le l).Perm l := by
  induction l using List.reverseRecOn with
  | nil => simp [sortStable]
  | append_singleton l x ih =>
    rw [sortStable_append_singleton]
    exact ((insLe_perm le x _).trans (ih.cons x)).trans
      (List.perm_append_singleton x l).symm

theorem pairwise_insLe (le : α → α → Bool)
    (htot : ∀ a b, le a b = true ∨ le b a = true)
    (htr : ∀ a b c, le a b = true → le b c = true → le a c = true)
    (x : α) (s : List α) (hs : s.Pairwise (fun a b => le a b = true)) :
    (insLe le x s).Pairwise (fun a b => le a b = true) := by
  induction s with
  | nil => simp [insLe]
  | cons y ys ih =>
    rcases List.pairwise_cons.mp hs with ⟨hy, hys⟩
    by_cases h : le y x = true
    · simp only [insLe, h, if_true]
      refine List.pairwise_cons.mpr ⟨?_, ih hys⟩
      intro z hz
      rcases (mem_insLe le x z ys).mp hz with rfl | hz
      · exact h
      · exact hy z hz
    · simp only [insLe, h, if_false]
      have hxy : le x y = true := (htot x y).resolve_right (fun hc => h hc)
      refine List.pairwise_cons.mpr ⟨?_, hs⟩
      intro z hz
      rcases List.mem_cons.mp hz with rfl | hz
      · exact hxy
      · exact htr x y z hxy (hy z hz)

theorem sortStable_sorted (le : α → α → Bool)
    (htot : ∀ a b, le a b = true ∨ le b a = true)
    (htr : ∀ a b c, le a b = true → le b c = true → le a c = true)
    (l : List α) :
    (sortStable le l).Pairwise (fun a b => le a b = true) := by
  induction l using List.reverseRecOn with
  | nil => simp [sortStable]
  | append_singleton l x ih =>
    rw [sortStable_append_singleton]
    exact pairwise_insLe le htot htr x _ ih

theorem sublist_insLe (le : α → α → Bool) (x : α) (s : List α) :
    s.Sublist (insLe le x s) := by
  induction s with
  | nil => simp [insLe]
  | cons y ys ih =>
    by_cases h : le y x = true
    · simpa only [insLe, h, if_true] using ih.cons₂ y
    · simp only [insLe, h, if_false]
      exact (List.Sublist.refl (y :: ys)).cons x

theorem pair_sublist_insLe (le : α → α → Bool)
    (htr : ∀ a b c, le a b = true → le b c = true → le a c = true)
    (x a : α) (s : List α)
    (hsort : s.Pairwise (fun a b => le a b = true))
    (ha : a ∈ s) (hax : le a x = true) :
    [a, x].Sublist (insLe le x s) := by
  induction s with
  | nil => cases ha
  | cons y ys ih =>
    rcases List.pairwise_cons.mp hsort with ⟨hy, hys⟩
    by_cases h : le y x = true
    · simp only [insLe, h, if_true]
      rcases List.mem_cons.mp ha with heq | ha'
      · subst heq
        exact (List.singleton_sublist.mpr ((mem_insLe le x x ys).mpr (Or.inl rfl))).cons₂ a
      · exact (ih hys ha').cons y
    · exfalso
      rcases List.mem_cons.mp ha with heq | ha'
      · subst heq
        exact h hax
      · exact h (htr y a x (hy a ha') hax)

theorem pair_sublist_cons {a b y : α} {ys : List α} (h : [a, b].Sublist (y :: ys)) :
    [a, b].Sublist ys ∨ (a = y ∧ [b].Sublist ys) := by
  cases h with
  | cons _ h' => exact Or.inl h'
  | cons₂ _ h' => exact Or.inr ⟨rfl, h'⟩

theorem pair_sublist_append_singleton {a b x : α} {l : List α}
    (h : [a, b].Sublist (l ++ [x])) :
    [a, b].Sublist l ∨ (b = x ∧ a ∈ l) := by
  induction l with
  | nil =>
    rcases pair_sublist_cons h with h' | ⟨heq, h'⟩
    · exact absurd h'.length_le (by simp)
    · exact absurd h'.length_le (by simp)
  | cons y ys ih =>
    rcases pair_sublist_cons h with h' | ⟨heq, h'⟩
    · rcases ih h' with h'' | ⟨hbx, ha⟩
      · exact Or.inl (h''.cons y)
      · exact Or.inr ⟨hbx, List.mem_cons_of_mem y ha⟩
    · subst heq
      have hb : b ∈ ys ++ [x] := List.singleton_sublist.mp h'
      rcases List.mem_append.mp hb with hb' | hb'
      · exact Or.inl ((List.singleton_sublist.mpr hb').cons₂ a)
      · exact Or.inr ⟨List.mem_singleton.mp hb', List.mem_cons_self a ys⟩

theorem pair_sublist_sortStable (le : α → α → Bool)
    (htot : ∀ a b, le a b = true ∨ le b a = true)
    (htr : ∀ a b c, le a b = true → le b c = true → le a c = true)
    {a b : α} {l : List α}
    (hab : [a, b].Sublist l) (hle : le a b = true) :
    [a, b].Sublist (sortStable le l) := by
  induction l using List.reverseRecOn with
  | nil =>
    exfalso
    have := hab.length_le
    simp at this
  | append_singleton l x ih =>
    rw [sortStable_append_singleton]
    rcases pair_sublist_append_singleton hab with h | ⟨heq, ha⟩
    · exact (ih h).trans (sublist_insLe le x _)
    · subst heq
      have ha' : a ∈ sortStable le l := ((sortStable_perm le l).mem_iff).mpr ha
      exact pair_sublist_insLe le htr _ a _ (sortStable_sorted le htot htr l) ha' hle

theorem pair_sublist_asymm {l : List α} (hn : l.Nodup) {a b : α}
    (h1 : [a, b].Sublist l) (h2 : [b, a].Sublist l) : False := by
  induction l with
  | nil =>
    have := h1.length_le
    simp at this
  | cons y ys ih =>
    have hy : y ∉ ys := (List.nodup_cons.mp hn).1
    have hn' : ys.Nodup := (List.nodup_cons.mp hn).2
    rcases pair_sublist_cons h1 with h1' | ⟨he1, h1'⟩
    · rcases pair_sublist_cons h2 with h2' | ⟨he2, h2'⟩
      · exact ih hn' h1' h2'
      · subst he2
        exact hy (h1'.subset (by simp))
    · subst he1
      rcases pair_sublist_cons h2 with h2' | ⟨he2, h2'⟩
      · exact hy (h2'.subset (by simp))
      · exact hy (List.singleton_sublist.mp h2')

theorem pair_sublist_of_mem {l : List α} {a b : α}
    (ha : a ∈ l) (hb : b ∈ l) (hne : a ≠ b) :
    [a, b].Sublist l ∨ [b, a].Sublist l := by
  induction l with
  | nil => cases ha
  | cons y ys ih =>
    rcases List.mem_cons.mp ha with heq | ha'
    · subst heq
      have hb' : b ∈ ys := by
        rcases List.mem_cons.mp hb with heq' | h
        · exact absurd heq'.symm hne
        · exact h
      exact Or.inl ((List.singleton_sublist.mpr hb').cons₂ a)
    · rcases List.mem_cons.mp hb with heq' | hb'
      · subst heq'
        exact Or.inr ((List.singleton_sublist.mpr ha').cons₂ b)
      · rcases ih ha' hb' with h | h
        · exact Or.inl (h.cons y)
        · exact Or.inr (h.cons y)

/-! ### Decimal rendering and parsing, modelling JS number formatting -/

/-- Decimal digits of `n`, least significant first, with explicit fuel so that the
definition is structural; `fuel ≥ n` suffices for a complete expansion. -/
def digitsRevAux : Nat → Nat → List Nat
  | 0, _ => []
  | fuel + 1, n => if n = 0 then [] else n % 10 :: digitsRevAux fuel (n / 10)

/-- Decimal digit characters of `n`, most significant first; models the output of
JavaScript `Number.prototype.toString` on a whole number. -/
def natToChars (n : Nat) : List Char :=
  if n = 0 then ['0'] else ((digitsRevAux n n).map Nat.digitChar).reverse

/-- Model of JavaScript `Number.prototype.toString` on a whole number. -/
def natToString (n : Nat) : String :=
  String.mk (natToChars n)

/-- Value of a least-significant-first digit list. -/
def ofDigitsRev : List Nat → Nat
  | [] => 0
  | d :: ds => d + 10 * ofDigitsRev ds

theorem ofDigitsRev_digitsRevAux : ∀ fuel n : Nat, n ≤ fuel →
    ofDigitsRev (digitsRevAux fuel n) = n
  | 0, n, h => by
    have hn : n = 0 := Nat.le_zero.mp h
    subst hn
    simp [digitsRevAux, ofDigitsRev]
  | fuel + 1, n, h => by
    by_cases hn : n = 0
    · simp [digitsRevAux, hn, ofDigitsRev]
    · have hdec : n / 10 ≤ fuel := by
        have : n / 10 < n := Nat.div_lt_self (Nat.pos_of_ne_zero hn) (by norm_num)
        omega
      simp only [digitsRevAux, hn, if_false, ofDigitsRev]
      rw [ofDigitsRev_digitsRevAux fuel (n / 10) hdec]
      omega

theorem digitsRevAux_lt : ∀ fuel n : Nat, ∀ d ∈ digitsRevAux fuel n, d < 10
  | 0, _, _, hd => by simp [digitsRevAux] at hd
  | fuel + 1, n, d, hd => by
    by_cases hn : n = 0
    · simp [digitsRevAux, hn] at hd
    · simp only [digitsRevAux, hn, if_false, List.mem_cons] at hd
      rcases hd with rfl | hd
      · omega
      · exact digitsRevAux_lt fuel (n / 10) d hd

theorem digitChar_class (d : Nat) (h : d < 10) :
    (Nat.digitChar d).isDigit = true ∧ (Nat.digitChar d).isWhitespace = false ∧
    (Nat.digitChar d).toNat - 48 = d ∧ Nat.digitChar d ≠ ',' ∧
    Nat.digitChar d ≠ '"' ∧ Nat.digitChar d ≠ '\n' ∧
    Nat.digitChar d ≠ '-' ∧ Nat.digitChar d ≠ '+' := by
  interval_cases d <;> exact ⟨rfl, rfl, rfl, by decide, by decide, by decide, by decide, by decide⟩

/-- Numeric value of a decimal digit character, as computed by a radix-10 `parseInt`. -/
def digitVal (c : Char) : Nat := c.toNat - 48

/-- Value of a most-significant-first digit character list. -/
def decimalVal (l : List Char) : Nat :=
  l.foldl (fun acc c => 10 * acc + digitVal c) 0

theorem foldl_decimal_digits : ∀ ds : List Nat, (∀ d ∈ ds, d < 10) → ∀ acc : Nat,
    List.foldl (fun acc c => 10 * acc + digitVal c) acc ((ds.map Nat.digitChar).reverse) =
      acc * 10 ^ ds.length + ofDigitsRev ds := by
  intro ds
  induction ds with
  | nil => intro _ acc; simp [ofDigitsRev]
  | cons d ds ih =>
    intro hlt acc
    have hd : d < 10 := hlt d (List.mem_cons_self d ds)
    have hds : ∀ x ∈ ds, x < 10 := fun x hx => hlt x (List.mem_cons_of_mem d hx)
    simp only [List.map_cons, List.reverse_cons, List.foldl_append, List.foldl_cons,
      List.foldl_nil, ih hds acc, ofDigitsRev, List.length_cons]
    have : digitVal (Nat.digitChar d) = d := (digitChar_class d hd).2.2.1
    rw [this, pow_succ]
    ring

theorem decimalVal_natToChars (n : Nat) : decimalVal (natToChars n) = n := by
  unfold natToChars decimalVal
  by_cases h : n = 0
  · subst h
    decide
  · rw [if_neg h]
    rw [foldl_decimal_digits (digitsRevAux n n) (digitsRevAux_lt n n) 0]
    rw [ofDigitsRev_digitsRevAux n n (le_refl n)]
    simp

theorem natToChars_digits (n : Nat) : ∀ c ∈ natToChars n, ∃ d, d < 10 ∧ c = Nat.digitChar d := by
  intro c hc
  unfold natToChars at hc
  by_cases h : n = 0
  · subst h
    simp at hc
    exact ⟨0, by omega, by rw [hc]; rfl⟩
  · rw [if_neg h] at hc
    rw [List.mem_reverse] at hc
    rcases List.mem_map.mp hc with ⟨d, hd, rfl⟩
    exact ⟨d, digitsRevAux_lt n n d hd, rfl⟩

theorem natToChars_ne_nil (n : Nat) : natToChars n ≠ [] := by
  unfold natToChars
  by_cases h : n = 0
  · simp [h]
  · rw [if_neg h]
    intro hcon
    have h0 : digitsRevAux n n = [] := by
      rcases hn : digitsRevAux n n with _ | ⟨d, ds⟩
      · rfl
      · rw [hn] at hcon
        simp at hcon
    have := ofDigitsRev_digitsRevAux n n (le_refl n)
    rw [h0] at this
    simp [ofDigitsRev] at this
    exact h this.symm

/-! ### Character-list models of the JS string operations used by the parser -/

/-- JS `String.prototype.trim` on the character list (ASCII whitespace model). -/
def trimChars (l : List Char) : List Char :=
  ((l.dropWhile Char.isWhitespace).reverse.dropWhile Char.isWhitespace).reverse

/-- JS `String.prototype.split` with a single-character separator. -/
def splitCh (c : Char) : List Char → List (List Char)
  | [] => [[]]
  | x :: xs =>
    if x = c then [] :: splitCh c xs
    else
      match splitCh c xs with
      | [] => [[x]]
      | h :: t => (x :: h) :: t

/-- Capitalize the first character: `word.charAt(0).toUpperCase() + word.slice(1)`. -/
def capFirst : List Char → List Char
  | [] => []
  | c :: rest => Char.toUpper c :: rest

/-- `normalizeCase` of `data-utils`: lower-case the whole string, then capitalize the
first character of each space-separated word (ASCII model of case conversion). -/
def normalizeCase (s : String) : String :=
  String.mk (List.intercalate [' '] ((splitCh ' ' (s.toList.map Char.toLower)).map capFirst))

/-- The field splitter of the parser (`parseCSVLine` in the source): a double quote
toggles the in-quotes state and is dropped, a comma outside quotes ends a field, and
every field is trimmed. -/
def parseCSVLineAux : List Char → Bool → List Char → List (List Char)
  | [], _, cur => [trimChars cur]
  | ch :: rest, inQuotes, cur =>
    if ch = '"' then parseCSVLineAux rest (!inQuotes) cur
    else if ch = ',' ∧ inQuotes = false then trimChars cur :: parseCSVLineAux rest inQuotes []
    else parseCSVLineAux rest inQuotes (cur ++ [ch])

/-- `parseCSVLine` of `data-utils`. -/
def parseCSVLine (line : String) : List String :=
  (parseCSVLineAux line.toList false []).map String.mk

/-- The longest digit prefix of `l` read as a radix-10 integer; `none` models `NaN`. -/
def digitsVal (l : List Char) : Option Nat :=
  let ds := l.takeWhile Char.isDigit
  if ds.isEmpty then none else some (decimalVal ds)

/-- Model of `parseInt(_, 10)` on a character list: skip leading whitespace, accept
one optional sign, then read the longest digit prefix; `none` models `NaN`
(an empty trimmed input falls through to `digitsVal [] = none`). -/
def parseIntChars (l : List Char) : Option Int :=
  let t := l.dropWhile Char.isWhitespace
  if t.headD ' ' = '-' then (digitsVal t.tail).map (fun n => -(n : Int))
  else if t.headD ' ' = '+' then (digitsVal t.tail).map (fun n => (n : Int))
  else (digitsVal t).map (fun n => (n : Int))

/-- Model of `parseInt(s, 10)`. -/
def parseIntJS (s : String) : Option Int :=
  parseIntChars s.toList

/-- The record produced by `parseCSV`: the bracket counts are `Option Int`, with
`none` modelling the `NaN` sentinel of a failed `parseInt`. -/
structure ParsedRecord where
  Month : String
  State : String
  District : String
  Age_0_5 : Option Int
  Age_5_17 : Option Int
  Age_18_plus : Option Int
deriving DecidableEq, Repr

/-- `parseCSV` of `data-utils`: trim the text, split into lines, drop the header and
map each remaining line to a record.  Missing fields are modelled as `""` (in JS they
are `undefined`, which makes the row malformed; no claim concerns such rows). -/
def parseCSV (csvText : String) : List ParsedRecord :=
  let lines := splitCh '\n' (trimChars csvText.toList)
  (lines.drop 1).map fun lineChars =>
    let values := (parseCSVLineAux lineChars false []).map String.mk
    { Month := values.getD 0 "",
      State := normalizeCase (values.getD 1 ""),
      District := normalizeCase (values.getD 2 ""),
      Age_0_5 := parseIntJS (values.getD 3 ""),
      Age_5_17 := parseIntJS (values.getD 4 ""),
      Age_18_plus := parseIntJS (values.getD 5 "") }

/-! ### Fixed-point decimal formatting models -/

/-- Model of `(num / den).toFixed(1)` for non-negative operands: exact half-up
rounding to one decimal place, with the IEEE `Infinity` / `NaN` strings for a zero
denominator. -/
def fixed1 (num den : Nat) : String :=
  if den = 0 then (if num = 0 then "NaN" else "Infinity")
  else
    let t := (num * 20 + den) / (2 * den)
    natToString (t / 10) ++ "." ++ natToString (t % 10)

/-- Model of `(num / den * 100).toFixed(0)`: exact half-up rounding to an integer,
with the IEEE `Infinity` / `NaN` strings for a zero denominator. -/
def pct0 (num den : Nat) : String :=
  if den = 0 then (if num = 0 then "NaN" else "Infinity")
  else natToString ((200 * num + den) / (2 * den))

/-- `formatNumber` of `data-utils`. -/
def formatNumber (num : Nat) : String :=
  if num ≥ 1000000 then fixed1 num 1000000 ++ "M"
  else if num ≥ 1000 then fixed1 num 1000 ++ "K"
  else natToString num

/-! ### The aggregation and classification engine -/

/-- The source comparison `num / den > tNum / tDen` on JS numbers (the thresholds
`0.4 = 2/5`, `0.75 = 3/4`, `0.35 = 7/20`, `0.65 = 13/20`, `0.25 = 1/4`,
`0.3 = 3/10` are passed as exact fractions), modelled by cross multiplication;
this reproduces the IEEE division-by-zero semantics for the positive thresholds
used by the engine (see the module comment). -/
def ratioGT (num den tNum tDen : Nat) : Bool :=
  decide (tNum * den < num * tDen)

/-- For a positive denominator, `ratioGT` is exactly the rational comparison
`num / den > tNum / tDen` of the source text. -/
theorem ratioGT_iff (num den tNum tDen : Nat) (hd : 0 < den) (ht : 0 < tDen) :
    ratioGT num den tNum tDen = true ↔ (tNum : Rat) / (tDen : Rat) < (num : Rat) / (den : Rat) := by
  unfold ratioGT
  rw [decide_eq_true_eq, div_lt_div_iff₀ (by exact_mod_cast ht) (by exact_mod_cast hd)]
  exact_mod_cast Iff.rfl

/-- `getDominantAgeGroup` of `data-utils`. -/
def getDominantAgeGroup (age0_5 age5_17 age18Plus : Nat) : String :=
  let m := max (max age0_5 age5_17) age18Plus
  if m = age18Plus then "Adult (18+)"
  else if m = age5_17 then "Youth (5-17)"
  else "Child (0-5)"

/-- `value <= cut` where `cut` may be `undefined` (an out-of-range index on the
sorted array): every comparison with `undefined` is false in JS. -/
def leOpt (v : Nat) : Option Nat → Bool
  | some c => decide (v ≤ c)
  | none => false

/-- Ascending numeric order, the comparator `(a, b) => a - b` of the source. -/
def natLe (a b : Nat) : Bool := decide (a ≤ b)

/-- `calculateIntensity` of `data-utils`; see the module comment for the modelling of
`Math.floor (length * 0.33)` and `Math.floor (length * 0.66)`. -/
def calculateIntensity (value : Nat) (values : List Nat) : Intensity :=
  let sorted := sortStable natLe values
  let p33 := sorted[sorted.length * 33 / 100]?
  let p66 := sorted[sorted.length * 66 / 100]?
  if leOpt value p33 then Intensity.low
  else if leOpt value p66 then Intensity.medium
  else Intensity.high

/-- The per-state accumulator of `aggregateByState`. -/
structure StateAgg where
  age0_5 : Nat
  age5_17 : Nat
  age18Plus : Nat
  districts : List DistrictData
deriving DecidableEq, Repr

/-- The sub-region summary built inline for one record. -/
def mkDistrict (r : AadhaarRecord) : DistrictData :=
  { district := r.District, state := r.State,
    totalUpdates := r.Age_0_5 + r.Age_5_17 + r.Age_18_plus,
    age0_5 := r.Age_0_5, age5_17 := r.Age_5_17, age18Plus := r.Age_18_plus,
    dominantAgeGroup := getDominantAgeGroup r.Age_0_5 r.Age_5_17 r.Age_18_plus,
    intensity := Intensity.low }

/-- Accumulate one record into a state aggregate. -/
def addRec (a : StateAgg) (r : AadhaarRecord) : StateAgg :=
  { age0_5 := a.age0_5 + r.Age_0_5,
    age5_17 := a.age5_17 + r.Age_5_17,
    age18Plus := a.age18Plus + r.Age_18_plus,
    districts := a.districts ++ [mkDistrict r] }

/-- One step of the `forEach` of `aggregateByState`.  A JS `Map` iterates in first
insertion order: `set` on an existing key updates in place, a new key is appended. -/
def addTo : List (String × StateAgg) → AadhaarRecord → List (String × StateAgg)
  | [], r => [(r.State, addRec ⟨0, 0, 0, []⟩ r)]
  | (k, a) :: rest, r =>
    if k = r.State then (k, addRec a r) :: rest
    else (k, a) :: addTo rest r

/-- The records of the selected month (`records.filter(r => r.Month === month)`). -/
def filteredRecords (records : List AadhaarRecord) (month : String) : List AadhaarRecord :=
  records.filter fun r => r.Month == month

/-- The state map of `aggregateByState` in insertion order. -/
def stateEntries (records : List AadhaarRecord) (month : String) : List (String × StateAgg) :=
  (filteredRecords records month).foldl addTo []

/-- `Array.from(stateMap.entries()).map(...)` of the source. -/
def mkStateData (e : String × StateAgg) : StateData :=
  { state := e.1,
    totalUpdates := e.2.age0_5 + e.2.age5_17 + e.2.age18Plus,
    age0_5 := e.2.age0_5, age5_17 := e.2.age5_17, age18Plus := e.2.age18Plus,
    districts := e.2.districts,
    dominantAgeGroup := getDominantAgeGroup e.2.age0_5 e.2.age5_17 e.2.age18Plus,
    intensity := Intensity.low }

/-- The state summaries before intensity classification and sorting. -/
def statesPre (records : List AadhaarRecord) (month : String) : List StateData :=
  (stateEntries records month).map mkStateData

/-- `totals` of the source: the reference distribution for state intensities. -/
def stateTotals (records : List AadhaarRecord) (month : String) : List Nat :=
  (statesPre records month).map (·.totalUpdates)

/-- `districtTotals` of the source: the reference distribution for district
intensities. -/
def districtTotals (records : List AadhaarRecord) (month : String) : List Nat :=
  (statesPre records month).flatMap fun s => s.districts.map (·.totalUpdates)

/-- Descending order on `totalUpdates`, the comparator
`(a, b) => b.totalUpdates - a.totalUpdates` of the source. -/
def stateLe (a b : StateData) : Bool := decide (b.totalUpdates ≤ a.totalUpdates)

/-- The `states` array of the source after the intensity-assignment pass. -/
def statesWithIntensity (records : List AadhaarRecord) (month : String) : List StateData :=
  (statesPre records month).map fun s =>
    { s with
      intensity := calculateIntensity s.totalUpdates (stateTotals records month),
      districts := s.districts.map fun d =>
        { d with intensity := calculateIntensity d.totalUpdates (districtTotals records month) } }

/-- `aggregateByState` of `data-utils`: filter, group, classify, sort descending. -/
def aggregateByState (records : List AadhaarRecord) (month : String) : List StateData :=
  sortStable stateLe (statesWithIntensity records month)

/-- The single alert a district can produce (`getDemographicAlerts` applies the three
threshold rules as an `if / else if / else if` chain, so the first match wins). -/
def districtAlert (stName : String) (d : DistrictData) : Option Alert :=
  if ratioGT d.age0_5 d.totalUpdates 2 5 then
    some { state := stName, district := d.district,
           alert := "High child enrollment (" ++ pct0 d.age0_5 d.totalUpdates ++ "%)",
           severity := Severity.high }
  else if ratioGT d.age18Plus d.totalUpdates 3 4 then
    some { state := stName, district := d.district,
           alert := "Adult-heavy updates (" ++ pct0 d.age18Plus d.totalUpdates ++ "%)",
           severity := Severity.medium }
  else if ratioGT d.age5_17 d.totalUpdates 7 20 then
    some { state := stName, district := d.district,
           alert := "Youth surge detected (" ++ pct0 d.age5_17 d.totalUpdates ++ "%)",
           severity := Severity.medium }
  else none

/-- Append an optional element (`alerts.push(...)` guarded by the rule chain). -/
def pushOpt (acc : List β) (o : Option β) : List β :=
  match o with
  | some a => acc ++ [a]
  | none => acc

/-- `getDemographicAlerts` of `data-utils`: push alerts in traversal order, then
`slice(0, 5)`. -/
def getDemographicAlerts (states : List StateData) : List Alert :=
  (states.foldl (fun acc s =>
    s.districts.foldl (fun acc2 d => pushOpt acc2 (districtAlert s.state d)) acc) []).take 5

/-- The `en-US` month names used by `toLocaleDateString`. -/
def monthNames : List String :=
  ["January", "February", "March", "April", "May", "June", "July", "August",
   "September", "October", "November", "December"]

/-- `formatMonth` of `data-utils`: split on `-`, build `new Date(year, month - 1)`
(with the JS month roll-over into adjacent years) and render as "Month Year".
A failed `parseInt` yields an invalid date; locale rendering is modelled for
common-era dates. -/
def formatMonth (monthStr : String) : String :=
  let parts := splitCh '-' monthStr.toList
  match parseIntJS (String.mk (parts.getD 0 [])), parseIntJS (String.mk (parts.getD 1 [])) with
  | some y, some m =>
    let t : Int := y * 12 + (m - 1)
    let y2 : Int := t.fdiv 12
    (monthNames.getD (t.emod 12).toNat "") ++ " " ++
      (if y2 < 0 then "-" ++ natToString (-y2).toNat else natToString y2.toNat)
  | _, _ => "Invalid Date"

/-- Rank used by the severity comparator of `generateRecommendations`. -/
def sevRank : Severity → Nat
  | Severity.high => 1
  | Severity.medium => 0

/-- The comparator `(a, b) => (b.severity === 'high' ? 1 : 0) - (a.severity === 'high' ? 1 : 0)`. -/
def recLe (a b : Recommendation) : Bool := decide (sevRank b.severity ≤ sevRank a.severity)

/-- Model of `parseFloat((num / den).toFixed(1)) > 1.5` (half-up decimal rounding of
the exact rational; `Infinity` for `num / 0` with `num > 0`, `NaN` otherwise). -/
def multGT15 (num den : Nat) : Bool :=
  if den = 0 then decide (0 < num)
  else decide (15 < (num * 20 + den) / (2 * den))

/-- Model of `total > (sumAll / countAll) * (mNum / mDen)` on JS numbers: with no
districts the average is `0 / 0 = NaN` and the comparison is false; otherwise the
comparison is exact by cross multiplication. -/
def gtAvgMul (total sumAll countAll mNum mDen : Nat) : Bool :=
  if countAll = 0 then false
  else decide (sumAll * mNum < total * countAll * mDen)

/-- For at least one district, `gtAvgMul` is exactly the rational comparison
`total > sumAll / countAll * (mNum / mDen)` of the source text. -/
theorem gtAvgMul_iff (total sumAll countAll mNum mDen : Nat)
    (hc : 0 < countAll) (hm : 0 < mDen) :
    gtAvgMul total sumAll countAll mNum mDen = true ↔
      (sumAll : Rat) / (countAll : Rat) * ((mNum : Rat) / (mDen : Rat)) < (total : Rat) := by
  unfold gtAvgMul
  rw [if_neg (Nat.pos_iff_ne_zero.mp hc), decide_eq_true_eq]
  rw [div_mul_div_comm, div_lt_iff₀ (by positivity), ← mul_assoc]
  exact_mod_cast Iff.rfl

/-- The reasons pushed for one `intensity = high` district, in source order.
`sumState / countState` is the per-state `stateMedian`; the multiplier
`total / stateMedian` equals `(total * countState) / sumState`. -/
def recReasons (sumState countState : Nat) (d : DistrictData) : List String :=
  (if multGT15 (d.totalUpdates * countState) sumState then
    [fixed1 (d.totalUpdates * countState) sumState ++ "× state median update volume"] else [])
  ++ (if ratioGT d.age18Plus d.totalUpdates 13 20 then ["Adult-heavy demographic skew"] else [])
  ++ (if ratioGT d.age0_5 d.totalUpdates 1 4 then ["High child enrollment activity"] else [])
  ++ (if ratioGT d.age5_17 d.totalUpdates 3 10 then ["Youth update surge"] else [])

/-- The actions pushed for one `intensity = high` district, in source order.
`sumAll / countAll` is the global `avgTotal`. -/
def recActions (sumAll countAll : Nat) (d : DistrictData) : List String :=
  (if ratioGT d.age18Plus d.totalUpdates 13 20 then
    ["Extended update windows", "Priority processing for biometric updates"] else [])
  ++ (if ratioGT d.age0_5 d.totalUpdates 1 4 then
    ["School-based enrollment camps", "Parent awareness campaigns"] else [])
  ++ (if ratioGT d.age5_17 d.totalUpdates 3 10 then ["College enrollment integration"] else [])
  ++ (if gtAvgMul d.totalUpdates sumAll countAll 3 2 then
    ["Temporary capacity expansion", "Targeted awareness campaigns"] else [])

/-- The severity ternary `district.totalUpdates > avgTotal * 2 ? 'high' : 'medium'`. -/
def recSeverity (total sumAll countAll : Nat) : Severity :=
  if gtAvgMul total sumAll countAll 2 1 then Severity.high else Severity.medium

/-- The expected-impact ternary of the source, keyed by the same condition. -/
def recImpact (total sumAll countAll : Nat) : String :=
  if gtAvgMul total sumAll countAll 2 1 then "~25–35% load normalization"
  else "~15–20% efficiency improvement"

/-- The recommendation built for one `intensity = high` district. -/
def recOfDistrict (sumAll countAll sumState countState : Nat) (monthFmt stName : String)
    (d : DistrictData) : Option Recommendation :=
  let reasons := recReasons sumState countState d
  let actions := recActions sumAll countAll d
  if reasons.isEmpty then none
  else some
    { severity := recSeverity d.totalUpdates sumAll countAll,
      location := d.district ++ ", " ++ stName,
      month := monthFmt,
      reasons := reasons,
      actions := if actions.isEmpty then ["Monitor situation closely"] else actions,
      expectedImpact := recImpact d.totalUpdates sumAll countAll }

/-- The recommendations of `generateRecommendations` in production order (the order
the source pushes them, before the severity sort). -/
def producedRecs (states : List StateData) (month : String) : List Recommendation :=
  let allDistricts := states.flatMap (·.districts)
  let sumAll := (allDistricts.map (·.totalUpdates)).sum
  let countAll := allDistricts.length
  states.flatMap fun s =>
    let sumState := (s.districts.map (·.totalUpdates)).sum
    let countState := s.districts.length
    (s.districts.filter (fun d => d.intensity == Intensity.high)).filterMap
      (recOfDistrict sumAll countAll sumState countState (formatMonth month) s.state)

/-- `generateRecommendations` of `data-utils`: stable severity sort, then `slice(0, 4)`. -/
def generateRecommendations (states : List StateData) (month : String) : List Recommendation :=
  (sortStable recLe (producedRecs states month)).take 4

/-! ### Facts about the comparators -/

theorem natLe_total : ∀ a b : Nat, natLe a b = true ∨ natLe b a = true := by
  intro a b
  unfold natLe
  rcases Nat.le_total a b with h | h
  · exact Or.inl (decide_eq_true h)
  · exact Or.inr (decide_eq_true h)

theorem natLe_trans : ∀ a b c : Nat, natLe a b = true → natLe b c = true → natLe a c = true := by
  intro a b c h1 h2
  exact decide_eq_true (Nat.le_trans (of_decide_eq_true h1) (of_decide_eq_true h2))

theorem stateLe_total : ∀ a b : StateData, stateLe a b = true ∨ stateLe b a = true := by
  intro a b
  unfold stateLe
  rcases Nat.le_total a.totalUpdates b.totalUpdates with h | h
  · exact Or.inr (decide_eq_true h)
  · exact Or.inl (decide_eq_true h)

theorem stateLe_trans : ∀ a b c : StateData,
    stateLe a b = true → stateLe b c = true → stateLe a c = true := by
  intro a b c h1 h2
  exact decide_eq_true (Nat.le_trans (of_decide_eq_true h2) (of_decide_eq_true h1))

theorem recLe_total : ∀ a b : Recommendation, recLe a b = true ∨ recLe b a = true := by
  intro a b
  unfold recLe
  rcases Nat.le_total (sevRank a.severity) (sevRank b.severity) with h | h
  · exact Or.inr (decide_eq_true h)
  · exact Or.inl (decide_eq_true h)

theorem recLe_trans : ∀ a b c : Recommendation,
    recLe a b = true → recLe b c = true → recLe a c = true := by
  intro a b c h1 h2
  exact decide_eq_true (Nat.le_trans (of_decide_eq_true h2) (of_decide_eq_true h1))

/-! ### C4: the dominant-bracket rule -/

/-- C4: `getDominantAgeGroup low mid high` resolves to Adult exactly when the high
bracket attains `max (low, mid, high)`, otherwise to Youth when the mid bracket
attains it, otherwise to Child; in particular the four tie-break examples of the
specification hold. -/
theorem getDominantAgeGroup_spec (low mid high : Nat) :
    getDominantAgeGroup low mid high =
      (if max low (max mid high) = high then "Adult (18+)"
       else if max low (max mid high) = mid then "Youth (5-17)"
       else "Child (0-5)") ∧
    getDominantAgeGroup 10 10 10 = "Adult (18+)" ∧
    getDominantAgeGroup 10 10 5 = "Youth (5-17)" ∧
    getDominantAgeGroup 5 10 10 = "Adult (18+)" ∧
    getDominantAgeGroup 10 5 5 = "Child (0-5)" := by
  refine ⟨?_, by decide, by decide, by decide, by decide⟩
  unfold getDominantAgeGroup
  rw [max_assoc]

/-! ### C8: unknown period and `formatNumber 0` -/

/-- C8: a period equal to no record's `Month` yields the empty region-summary
sequence (a valid "no data" state rather than an error), and `formatNumber 0` is
the string `"0"`. -/
theorem aggregateByState_empty_period :
    (∀ (records : List AadhaarRecord) (month : String),
      (∀ r ∈ records, r.Month ≠ month) → aggregateByState records month = []) ∧
    formatNumber 0 = "0" := by
  constructor
  · intro records month h
    have hf : filteredRecords records month = [] := by
      apply List.filter_eq_nil_iff.mpr
      intro r hr
      simpa using h r hr
    have h1 : stateEntries records month = [] := by
      unfold stateEntries
      rw [hf]
      rfl
    unfold aggregateByState statesWithIntensity statesPre
    rw [h1]
    rfl
  · decide

/-- Witness for C8 at a concrete record list and period. -/
theorem aggregateByState_empty_period_witness :
    aggregateByState [⟨"2024-01", "A", "d", 1, 2, 3⟩] "2024-02" = [] ∧ formatNumber 0 = "0" :=
  ⟨aggregateByState_empty_period.1 [⟨"2024-01", "A", "d", 1, 2, 3⟩] "2024-02" (by decide),
   aggregateByState_empty_period.2⟩

/-! ### C3: the percentile classifier -/

/-- C3: for a non-empty reference list, `calculateIntensity` classifies against the
elements of the ascending-sorted copy at the 0-indexed positions `⌊0.33·n⌋` and
`⌊0.66·n⌋`: the result is `low` iff `value ≤ cut33`, `medium` iff
`cut33 < value ≤ cut66`, and `high` iff `cut66 < value` (the reference list itself
is a pure value and is never modified). -/
theorem calculateIntensity_spec (value : Nat) (values : List Nat) (h : values ≠ []) :
    ∃ c33 c66 : Nat,
      (sortStable natLe values)[values.length * 33 / 100]? = some c33 ∧
      (sortStable natLe values)[values.length * 66 / 100]? = some c66 ∧
      c33 ≤ c66 ∧
      (calculateIntensity value values = Intensity.low ↔ value ≤ c33) ∧
      (calculateIntensity value values = Intensity.medium ↔ c33 < value ∧ value ≤ c66) ∧
      (calculateIntensity value values = Intensity.high ↔ c66 < value) := by
  have hlen : (sortStable natLe values).length = values.length :=
    (sortStable_perm natLe values).length_eq
  have hpos : 0 < values.length := List.length_pos.mpr h
  have hi33 : values.length * 33 / 100 < (sortStable natLe values).length := by
    rw [hlen]
    apply Nat.div_lt_of_lt_mul
    omega
  have hi66 : values.length * 66 / 100 < (sortStable natLe values).length := by
    rw [hlen]
    apply Nat.div_lt_of_lt_mul
    omega
  have hij : values.length * 33 / 100 ≤ values.length * 66 / 100 :=
    Nat.div_le_div_right (by omega)
  have hcc : (sortStable natLe values).get ⟨values.length * 33 / 100, hi33⟩ ≤
      (sortStable natLe values).get ⟨values.length * 66 / 100, hi66⟩ := by
    rcases Nat.lt_or_ge (values.length * 33 / 100) (values.length * 66 / 100) with hlt | hge
    · have hp := List.pairwise_iff_get.mp (sortStable_sorted natLe natLe_total natLe_trans values)
      exact of_decide_eq_true (hp ⟨_, hi33⟩ ⟨_, hi66⟩ hlt)
    · have heq : values.length * 33 / 100 = values.length * 66 / 100 := le_antisymm hij hge
      simp only [List.get_eq_getElem, heq]
      exact le_refl _
  refine ⟨(sortStable natLe values).get ⟨values.length * 33 / 100, hi33⟩,
          (sortStable natLe values).get ⟨values.length * 66 / 100, hi66⟩,
          ?_, ?_, hcc, ?_, ?_, ?_⟩
  · rw [List.getElem?_eq_getElem hi33]
    rfl
  · rw [List.getElem?_eq_getElem hi66]
    rfl
  all_goals {
    simp only [List.get_eq_getElem] at hcc
    unfold calculateIntensity
    simp only [hlen, List.getElem?_eq_getElem hi33, List.getElem?_eq_getElem hi66, leOpt,
      List.get_eq_getElem, decide_eq_true_eq]
    split_ifs with h1 h2 <;> simp <;> omega
  }

/-- Witness for C3 at `value = 5`, `values = [1, 4, 9]`. -/
theorem calculateIntensity_spec_witness :
    ∃ c33 c66 : Nat,
      (sortStable natLe [1, 4, 9])[([1, 4, 9] : List Nat).length * 33 / 100]? = some c33 ∧
      (sortStable natLe [1, 4, 9])[([1, 4, 9] : List Nat).length * 66 / 100]? = some c66 ∧
      c33 ≤ c66 ∧
      (calculateIntensity 5 [1, 4, 9] = Intensity.low ↔ 5 ≤ c33) ∧
      (calculateIntensity 5 [1, 4, 9] = Intensity.medium ↔ c33 < 5 ∧ 5 ≤ c66) ∧
      (calculateIntensity 5 [1, 4, 9] = Intensity.high ↔ c66 < 5) :=
  calculateIntensity_spec 5 [1, 4, 9] (by decide)

/-! ### C1: sum invariants of the aggregation -/

/-- The sum invariant carried by every entry of the state map. -/
def aggOk (e : String × StateAgg) : Prop :=
  e.2.age0_5 = (e.2.districts.map (·.age0_5)).sum ∧
  e.2.age5_17 = (e.2.districts.map (·.age5_17)).sum ∧
  e.2.age18Plus = (e.2.districts.map (·.age18Plus)).sum ∧
  ∀ d ∈ e.2.districts, d.age0_5 + d.age5_17 + d.age18Plus = d.totalUpdates

theorem aggOk_addRec (k : String) (a : StateAgg) (h : aggOk (k, a)) (r : AadhaarRecord)
    (k2 : String) : aggOk (k2, addRec a r) := by
  obtain ⟨h1, h2, h3, h4⟩ := h
  have h1' : a.age0_5 = (a.districts.map (·.age0_5)).sum := h1
  have h2' : a.age5_17 = (a.districts.map (·.age5_17)).sum := h2
  have h3' : a.age18Plus = (a.districts.map (·.age18Plus)).sum := h3
  have h4' : ∀ d ∈ a.districts, d.age0_5 + d.age5_17 + d.age18Plus = d.totalUpdates := h4
  refine ⟨?_, ?_, ?_, ?_⟩
  · show (addRec a r).age0_5 = ((addRec a r).districts.map (·.age0_5)).sum
    simp [addRec, mkDistrict, h1']
  · show (addRec a r).age5_17 = ((addRec a r).districts.map (·.age5_17)).sum
    simp [addRec, mkDistrict, h2']
  · show (addRec a r).age18Plus = ((addRec a r).districts.map (·.age18Plus)).sum
    simp [addRec, mkDistrict, h3']
  · intro d hd
    have hd2 : d ∈ a.districts ++ [mkDistrict r] := hd
    rcases List.mem_append.mp hd2 with hd' | hd'
    · exact h4' d hd'
    · simp only [List.mem_singleton] at hd'
      subst hd'
      rfl

theorem aggOk_addTo {acc : List (String × StateAgg)} (h : ∀ e ∈ acc, aggOk e)
    (r : AadhaarRecord) : ∀ e ∈ addTo acc r, aggOk e := by
  induction acc with
  | nil =>
    intro e he
    simp only [addTo, List.mem_singleton] at he
    subst he
    exact aggOk_addRec "" ⟨0, 0, 0, []⟩ ⟨rfl, rfl, rfl, by simp⟩ r r.State
  | cons p rest ih =>
    obtain ⟨k, a⟩ := p
    intro e he
    have hka : aggOk (k, a) := h (k, a) (List.mem_cons_self _ _)
    have hrest : ∀ x ∈ rest, aggOk x := fun x hx => h x (List.mem_cons_of_mem _ hx)
    by_cases hk : k = r.State
    · subst hk
      simp only [addTo, if_pos rfl] at he
      rcases List.mem_cons.mp he with heq | he2
      · subst heq
        exact aggOk_addRec _ _ hka r _
      · exact hrest e he2
    · simp only [addTo, if_neg hk] at he
      rcases List.mem_cons.mp he with heq | he2
      · subst heq
        exact hka
      · exact ih hrest e he2

theorem aggOk_foldl : ∀ (l : List AadhaarRecord) (acc : List (String × StateAgg)),
    (∀ e ∈ acc, aggOk e) → ∀ e ∈ l.foldl addTo acc, aggOk e := by
  intro l
  induction l with
  | nil => intro acc h e he; exact h e he
  | cons r l ih =>
    intro acc h e he
    exact ih (addTo acc r) (aggOk_addTo h r) e he

theorem aggOk_stateEntries (records : List AadhaarRecord) (month : String) :
    ∀ e ∈ stateEntries records month, aggOk e := by
  unfold stateEntries
  exact aggOk_foldl _ [] (by simp)

/-- C1: in the output of `aggregateByState`, every district summary's three bracket
counts sum to its `totalUpdates`, and every state summary's bracket counts are the
exact sums of its districts' corresponding counts, with its `totalUpdates` the sum
of its own three bracket counts. -/
theorem aggregateByState_sum_invariant (records : List AadhaarRecord) (month : String)
    (s : StateData) (hs : s ∈ aggregateByState records month) :
    (∀ d ∈ s.districts, d.age0_5 + d.age5_17 + d.age18Plus = d.totalUpdates) ∧
    s.age0_5 = (s.districts.map (·.age0_5)).sum ∧
    s.age5_17 = (s.districts.map (·.age5_17)).sum ∧
    s.age18Plus = (s.districts.map (·.age18Plus)).sum ∧
    s.totalUpdates = s.age0_5 + s.age5_17 + s.age18Plus := by
  unfold aggregateByState statesWithIntensity at hs
  have hs2 := (sortStable_perm stateLe _).mem_iff.mp hs
  rcases List.mem_map.mp hs2 with ⟨s0, hs0, rfl⟩
  rcases List.mem_map.mp hs0 with ⟨e, he, rfl⟩
  obtain ⟨h1, h2, h3, h4⟩ := aggOk_stateEntries records month e he
  refine ⟨?_, ?_, ?_, ?_, rfl⟩
  · intro d hd
    simp only [mkStateData] at hd
    rcases List.mem_map.mp hd with ⟨d0, hd0, rfl⟩
    exact h4 d0 hd0
  · simpa [mkStateData, List.map_map, Function.comp] using h1
  · simpa [mkStateData, List.map_map, Function.comp] using h2
  · simpa [mkStateData, List.map_map, Function.comp] using h3

/-- Witness for C1 at a one-record list. -/
theorem aggregateByState_sum_invariant_witness :
    (∀ d ∈ ([⟨"d1", "A", 3, 1, 1, 1, "Adult (18+)", Intensity.low⟩] : List DistrictData),
      d.age0_5 + d.age5_17 + d.age18Plus = d.totalUpdates) ∧
    (1 : Nat) = (([⟨"d1", "A", 3, 1, 1, 1, "Adult (18+)", Intensity.low⟩] : List DistrictData).map (·.age0_5)).sum ∧
    (1 : Nat) = (([⟨"d1", "A", 3, 1, 1, 1, "Adult (18+)", Intensity.low⟩] : List DistrictData).map (·.age5_17)).sum ∧
    (1 : Nat) = (([⟨"d1", "A", 3, 1, 1, 1, "Adult (18+)", Intensity.low⟩] : List DistrictData).map (·.age18Plus)).sum ∧
    (3 : Nat) = 1 + 1 + 1 :=
  aggregateByState_sum_invariant [⟨"2024-01", "A", "d1", 1, 1, 1⟩] "2024-01"
    ⟨"A", 3, 1, 1, 1, [⟨"d1", "A", 3, 1, 1, 1, "Adult (18+)", Intensity.low⟩],
      "Adult (18+)", Intensity.low⟩
    (by decide)

/-! ### C7: the classifier is never called with an empty reference list -/

/-- C7: the invocations of `calculateIntensity` inside `aggregateByState` are
`calculateIntensity s.totalUpdates (stateTotals records month)` for a grouped state
`s` and `calculateIntensity d.totalUpdates (districtTotals records month)` for a
district `d` of `s`; whenever such a call happens the reference list contains the
corresponding total, hence is non-empty, so the undefined empty-reference case of
the classifier is unreachable. -/
theorem classification_reference_nonempty (records : List AadhaarRecord) (month : String)
    (s : StateData) (hs : s ∈ statesPre records month) :
    stateTotals records month ≠ [] ∧
    ∀ d ∈ s.districts, districtTotals records month ≠ [] := by
  constructor
  · have hmem : s.totalUpdates ∈ stateTotals records month := by
      unfold stateTotals
      exact List.mem_map.mpr ⟨s, hs, rfl⟩
    exact List.ne_nil_of_mem hmem
  · intro d hd
    have hmem : d.totalUpdates ∈ districtTotals records month := by
      unfold districtTotals
      exact List.mem_flatMap.mpr ⟨s, hs, List.mem_map.mpr ⟨d, hd, rfl⟩⟩
    exact List.ne_nil_of_mem hmem

/-- Witness for C7 at a one-record list. -/
theorem classification_reference_nonempty_witness :
    stateTotals [⟨"2024-01", "A", "d1", 1, 1, 1⟩] "2024-01" ≠ [] ∧
    ∀ d ∈ ([⟨"d1", "A", 3, 1, 1, 1, "Adult (18+)", Intensity.low⟩] : List DistrictData),
      districtTotals [⟨"2024-01", "A", "d1", 1, 1, 1⟩] "2024-01" ≠ [] :=
  classification_reference_nonempty [⟨"2024-01", "A", "d1", 1, 1, 1⟩] "2024-01"
    ⟨"A", 3, 1, 1, 1, [⟨"d1", "A", 3, 1, 1, 1, "Adult (18+)", Intensity.low⟩],
      "Adult (18+)", Intensity.low⟩ (by decide)

/-! ### C2: descending order and first-seen stability of the region summaries -/

/-- The key sequence of a JS `Map` built by repeated `set`: existing keys stay in
place, new keys are appended. -/
def foKeys : List String → List String → List String
  | ks, [] => ks
  | ks, x :: l => foKeys (if x ∈ ks then ks else ks ++ [x]) l

theorem addTo_keys (acc : List (String × StateAgg)) (r : AadhaarRecord) :
    (addTo acc r).map Prod.fst =
      if r.State ∈ acc.map Prod.fst then acc.map Prod.fst
      else acc.map Prod.fst ++ [r.State] := by
  induction acc with
  | nil => simp [addTo]
  | cons p rest ih =>
    obtain ⟨k, a⟩ := p
    by_cases hk : k = r.State
    · subst hk
      simp [addTo]
    · simp only [addTo, if_neg hk, List.map_cons, ih]
      by_cases hm : r.State ∈ rest.map Prod.fst
      · simp [hm]
      · simp [hm, Ne.symm hk]

theorem foldl_addTo_keys : ∀ (l : List AadhaarRecord) (acc : List (String × StateAgg)),
    (l.foldl addTo acc).map Prod.fst = foKeys (acc.map Prod.fst) (l.map (·.State)) := by
  intro l
  induction l with
  | nil => intro acc; rfl
  | cons r l ih =>
    intro acc
    simp only [List.foldl_cons, List.map_cons, foKeys]
    rw [ih, addTo_keys]

theorem stateEntries_keys (records : List AadhaarRecord) (month : String) :
    (stateEntries records month).map Prod.fst =
      foKeys [] ((filteredRecords records month).map (·.State)) := by
  unfold stateEntries
  rw [foldl_addTo_keys]
  rfl

theorem foKeys_nodup : ∀ (l : List String) (ks : List String),
    ks.Nodup → (foKeys ks l).Nodup := by
  intro l
  induction l with
  | nil => intro ks h; exact h
  | cons x l ih =>
    intro ks h
    simp only [foKeys]
    by_cases hm : x ∈ ks
    · rw [if_pos hm]
      exact ih ks h
    · rw [if_neg hm]
      apply ih
      rw [List.nodup_append]
      refine ⟨h, List.nodup_singleton x, ?_⟩
      intro a ha hax
      rw [List.mem_singleton] at hax
      subst hax
      exact hm ha

theorem foKeys_order : ∀ (l : List String) (ks : List String) {a b : String},
    [a, b].Sublist (foKeys ks l) →
    [a, b].Sublist ks ∨ (a ∈ ks ∧ b ∉ ks) ∨
      (a ∉ ks ∧ b ∉ ks ∧ ∃ p q, l = p ++ q ∧ a ∈ p ∧ b ∉ p) := by
  intro l
  induction l with
  | nil => intro ks a b h; exact Or.inl h
  | cons x l ih =>
    intro ks a b h
    simp only [foKeys] at h
    by_cases hm : x ∈ ks
    · rw [if_pos hm] at h
      rcases ih ks h with h' | ⟨ha, hb⟩ | ⟨ha, hb, p, q, heq, hap, hbp⟩
      · exact Or.inl h'
      · exact Or.inr (Or.inl ⟨ha, hb⟩)
      · subst heq
        refine Or.inr (Or.inr ⟨ha, hb, x :: p, q, rfl, List.mem_cons_of_mem x hap, ?_⟩)
        intro hc
        rcases List.mem_cons.mp hc with hbx | hc2
        · subst hbx
          exact hb hm
        · exact hbp hc2
    · rw [if_neg hm] at h
      rcases ih (ks ++ [x]) h with h' | ⟨ha, hb⟩ | ⟨ha, hb, p, q, heq, hap, hbp⟩
      · rcases pair_sublist_append_singleton h' with h'' | ⟨hbx, ha2⟩
        · exact Or.inl h''
        · subst hbx
          exact Or.inr (Or.inl ⟨ha2, hm⟩)
      · rcases List.mem_append.mp ha with ha2 | ha2
        · exact Or.inr (Or.inl ⟨ha2, fun hc => hb (List.mem_append.mpr (Or.inl hc))⟩)
        · rw [List.mem_singleton] at ha2
          subst ha2
          refine Or.inr (Or.inr ⟨hm, fun hc => hb (List.mem_append.mpr (Or.inl hc)),
            [a], l, rfl, List.mem_singleton_self a, ?_⟩)
          intro hc
          rw [List.mem_singleton] at hc
          subst hc
          exact hb (List.mem_append.mpr (Or.inr (List.mem_singleton_self b)))
      · subst heq
        refine Or.inr (Or.inr ⟨fun hc => ha (List.mem_append.mpr (Or.inl hc)),
          fun hc => hb (List.mem_append.mpr (Or.inl hc)),
          x :: p, q, rfl, List.mem_cons_of_mem x hap, ?_⟩)
        intro hc
        rcases List.mem_cons.mp hc with hbx | hc2
        · subst hbx
          exact hb (List.mem_append.mpr (Or.inr (List.mem_singleton_self b)))
        · exact hbp hc2

theorem foKeys_first_seen {l : List String} {a b : String}
    (h : [a, b].Sublist (foKeys [] l)) :
    ∃ p q, l = p ++ q ∧ a ∈ p ∧ b ∉ p := by
  rcases foKeys_order l [] h with h' | ⟨ha, hb⟩ | ⟨ha, hb, p, q, heq, hap, hbp⟩
  · exact absurd h'.length_le (by simp)
  · cases ha
  · exact ⟨p, q, heq, hap, hbp⟩

theorem statesWithIntensity_names (records : List AadhaarRecord) (month : String) :
    (statesWithIntensity records month).map (·.state) =
      foKeys [] ((filteredRecords records month).map (·.State)) := by
  have h1 : (statesWithIntensity records month).map (·.state) =
      (stateEntries records month).map Prod.fst := by
    unfold statesWithIntensity statesPre
    rw [List.map_map, List.map_map]
    rfl
  rw [h1, stateEntries_keys]

theorem statesWithIntensity_names_nodup (records : List AadhaarRecord) (month : String) :
    ((statesWithIntensity records month).map (·.state)).Nodup := by
  rw [statesWithIntensity_names]
  exact foKeys_nodup _ [] List.nodup_nil

/-- C2: the sequence returned by `aggregateByState` is sorted descending by
`totalUpdates`, and the sort is stable on first-seen region order: whenever `a`
appears before `b` in the output with `a.totalUpdates = b.totalUpdates`, some prefix
of the filtered records' region-name sequence contains `a`'s region but not `b`'s,
i.e. `a`'s region first appears strictly before `b`'s among the records of the
period. -/
theorem aggregateByState_sorted_stable (records : List AadhaarRecord) (month : String) :
    (aggregateByState records month).Pairwise (fun a b => b.totalUpdates ≤ a.totalUpdates) ∧
    ∀ a b : StateData, [a, b].Sublist (aggregateByState records month) →
      a.totalUpdates = b.totalUpdates →
      ∃ p q, (filteredRecords records month).map (·.State) = p ++ q ∧
        a.state ∈ p ∧ b.state ∉ p := by
  have hperm : (aggregateByState records month).Perm (statesWithIntensity records month) :=
    sortStable_perm stateLe (statesWithIntensity records month)
  have hnodupM : (statesWithIntensity records month).Nodup :=
    List.Nodup.of_map _ (statesWithIntensity_names_nodup records month)
  have hnodupOut : (aggregateByState records month).Nodup :=
    hperm.nodup_iff.mpr hnodupM
  constructor
  · have hp := sortStable_sorted stateLe stateLe_total stateLe_trans
      (statesWithIntensity records month)
    exact hp.imp fun h => of_decide_eq_true h
  · intro a b hab heq
    have haM : a ∈ statesWithIntensity records month :=
      hperm.mem_iff.mp (hab.subset (by simp))
    have hbM : b ∈ statesWithIntensity records month :=
      hperm.mem_iff.mp (hab.subset (by simp))
    have hne : a ≠ b := by
      intro hcon
      subst hcon
      exact (List.nodup_iff_sublist.mp hnodupOut a) hab
    have habM : [a, b].Sublist (statesWithIntensity records month) := by
      rcases pair_sublist_of_mem haM hbM hne with h | h
      · exact h
      · exfalso
        have hba : [b, a].Sublist (aggregateByState records month) := by
          unfold aggregateByState
          exact pair_sublist_sortStable stateLe stateLe_total stateLe_trans h
            (by unfold stateLe; rw [heq]; simp)
        exact pair_sublist_asymm hnodupOut hab hba
    have hnames : [a.state, b.state].Sublist
        (foKeys [] ((filteredRecords records month).map (·.State))) := by
      rw [← statesWithIntensity_names]
      exact List.Sublist.map (·.state) habM
    exact foKeys_first_seen hnames

/-- Witness for C2 at a two-record list with equal totals. -/
theorem aggregateByState_sorted_stable_witness :
    ∃ p q, (filteredRecords [⟨"2024-01", "A", "d1", 1, 1, 1⟩, ⟨"2024-01", "B", "d2", 1, 1, 1⟩]
        "2024-01").map (·.State) = p ++ q ∧
      "A" ∈ p ∧ "B" ∉ p := by
  have h := (aggregateByState_sorted_stable
    [⟨"2024-01", "A", "d1", 1, 1, 1⟩, ⟨"2024-01", "B", "d2", 1, 1, 1⟩] "2024-01").2
    ⟨"A", 3, 1, 1, 1, [⟨"d1", "A", 3, 1, 1, 1, "Adult (18+)", Intensity.low⟩],
      "Adult (18+)", Intensity.low⟩
    ⟨"B", 3, 1, 1, 1, [⟨"d2", "B", 3, 1, 1, 1, "Adult (18+)", Intensity.low⟩],
      "Adult (18+)", Intensity.low⟩
  exact h (by decide) rfl

/-! ### C5: the demographic alert rules -/

theorem foldl_push_filterMap {α β : Type} (f : α → Option β) :
    ∀ (l : List α) (acc : List β),
      l.foldl (fun acc2 d => pushOpt acc2 (f d)) acc = acc ++ l.filterMap f := by
  intro l
  induction l with
  | nil => intro acc; simp
  | cons d l ih =>
    intro acc
    simp only [List.foldl_cons]
    cases hf : f d with
    | none =>
      rw [List.filterMap_cons_none hf]
      show List.foldl (fun acc2 d => pushOpt acc2 (f d)) acc l = acc ++ List.filterMap f l
      exact ih acc
    | some a =>
      rw [List.filterMap_cons_some hf]
      show List.foldl (fun acc2 d => pushOpt acc2 (f d)) (acc ++ [a]) l =
        acc ++ (a :: List.filterMap f l)
      rw [ih]
      simp

theorem foldl_states_alerts (states : List StateData) :
    ∀ acc : List Alert,
      states.foldl (fun acc s =>
        s.districts.foldl (fun acc2 d => pushOpt acc2 (districtAlert s.state d)) acc) acc =
      acc ++ states.flatMap fun s => s.districts.filterMap (districtAlert s.state) := by
  induction states with
  | nil => intro acc; simp
  | cons s states ih =>
    intro acc
    simp only [List.foldl_cons, List.flatMap_cons]
    rw [foldl_push_filterMap (districtAlert s.state), ih]
    simp

theorem getDemographicAlerts_eq (states : List StateData) :
    getDemographicAlerts states =
      (states.flatMap fun s => s.districts.filterMap (districtAlert s.state)).take 5 := by
  unfold getDemographicAlerts
  rw [foldl_states_alerts]
  simp

/-- C5: `getDemographicAlerts` returns the first at most five alerts in
region-then-sub-region traversal order, where each sub-region contributes at most
one alert decided by the first matching rule of the fixed chain — child ratio
`> 0.40` with severity high, else adult ratio `> 0.75` with severity medium, else
youth ratio `> 0.35` with severity medium, else no alert. -/
theorem getDemographicAlerts_spec (states : List StateData) (stName : String)
    (d : DistrictData) :
    getDemographicAlerts states =
      (states.flatMap fun s => s.districts.filterMap (districtAlert s.state)).take 5 ∧
    (getDemographicAlerts states).length ≤ 5 ∧
    (ratioGT d.age0_5 d.totalUpdates 2 5 = true →
      ∃ msg, districtAlert stName d = some ⟨stName, d.district, msg, Severity.high⟩) ∧
    (ratioGT d.age0_5 d.totalUpdates 2 5 = false →
      ratioGT d.age18Plus d.totalUpdates 3 4 = true →
      ∃ msg, districtAlert stName d = some ⟨stName, d.district, msg, Severity.medium⟩) ∧
    (ratioGT d.age0_5 d.totalUpdates 2 5 = false →
      ratioGT d.age18Plus d.totalUpdates 3 4 = false →
      ratioGT d.age5_17 d.totalUpdates 7 20 = true →
      ∃ msg, districtAlert stName d = some ⟨stName, d.district, msg, Severity.medium⟩) ∧
    (ratioGT d.age0_5 d.totalUpdates 2 5 = false →
      ratioGT d.age18Plus d.totalUpdates 3 4 = false →
      ratioGT d.age5_17 d.totalUpdates 7 20 = false →
      districtAlert stName d = none) := by
  refine ⟨getDemographicAlerts_eq states, ?_, ?_, ?_, ?_, ?_⟩
  · rw [getDemographicAlerts_eq states]
    simp [List.length_take]
  · intro h1
    refine ⟨"High child enrollment (" ++ pct0 d.age0_5 d.totalUpdates ++ "%)", ?_⟩
    unfold districtAlert
    rw [if_pos h1]
  · intro h1 h2
    refine ⟨"Adult-heavy updates (" ++ pct0 d.age18Plus d.totalUpdates ++ "%)", ?_⟩
    unfold districtAlert
    rw [if_neg (by simp [h1]), if_pos h2]
  · intro h1 h2 h3
    refine ⟨"Youth surge detected (" ++ pct0 d.age5_17 d.totalUpdates ++ "%)", ?_⟩
    unfold districtAlert
    rw [if_neg (by simp [h1]), if_neg (by simp [h2]), if_pos h3]
  · intro h1 h2 h3
    unfold districtAlert
    rw [if_neg (by simp [h1]), if_neg (by simp [h2]), if_neg (by simp [h3])]

/-- Witness for C5: the first rule fires for a child-heavy district. -/
theorem getDemographicAlerts_spec_witness :
    ∃ msg, districtAlert "S" ⟨"D", "S", 1, 1, 0, 0, "x", Intensity.low⟩ =
      some ⟨"S", "D", msg, Severity.high⟩ :=
  ((getDemographicAlerts_spec [] "S" ⟨"D", "S", 1, 1, 0, 0, "x", Intensity.low⟩).2.2.1)
    (by decide)

/-! ### C6: recommendation severity, ordering and truncation -/

theorem recOfDistrict_severity (sumAll countAll sumState countState : Nat) (mf st : String)
    (d : DistrictData) (r : Recommendation)
    (h : recOfDistrict sumAll countAll sumState countState mf st d = some r) :
    (r.severity = Severity.high ↔ gtAvgMul d.totalUpdates sumAll countAll 2 1 = true) ∧
    (r.severity = Severity.high ↔ r.expectedImpact = "~25–35% load normalization") ∧
    (r.severity = Severity.medium ↔ r.expectedImpact = "~15–20% efficiency improvement") := by
  cases hre : (recReasons sumState countState d).isEmpty with
  | true =>
    simp only [recOfDistrict, hre, if_true] at h
    exact absurd h (by simp)
  | false =>
    simp only [recOfDistrict, hre, Bool.false_eq_true, if_false, Option.some_inj] at h
    subst h
    unfold recSeverity recImpact
    cases hg : gtAvgMul d.totalUpdates sumAll countAll 2 1 with
    | false => refine ⟨by simp [hg], by simp [hg], by simp [hg]⟩
    | true => refine ⟨by simp [hg], by simp [hg], by simp [hg]⟩

theorem producedRecs_mem (states : List StateData) (month : String) (r : Recommendation)
    (hr : r ∈ producedRecs states month) :
    ∃ s ∈ states, ∃ d ∈ s.districts, d.intensity = Intensity.high ∧
      recOfDistrict ((states.flatMap (·.districts)).map (·.totalUpdates)).sum
        (states.flatMap (·.districts)).length
        ((s.districts.map (·.totalUpdates)).sum) s.districts.length
        (formatMonth month) s.state d = some r := by
  simp only [producedRecs] at hr
  rcases List.mem_flatMap.mp hr with ⟨s, hs, hr2⟩
  rcases List.mem_filterMap.mp hr2 with ⟨d, hd, hfd⟩
  rcases List.mem_filter.mp hd with ⟨hd2, hdi⟩
  refine ⟨s, hs, d, hd2, ?_, hfd⟩
  simpa using hdi

/-- C6: a recommendation emitted for a district has severity high exactly when the
district's `totalUpdates` exceeds twice the global average district total (and
exactly then the high-tier expected-impact string, otherwise severity medium with
the medium-tier string); the returned list is the first at most four elements of
the stable severity sort of the production-ordered recommendations, so every high
recommendation precedes every medium one and equal-severity recommendations keep
their production order. -/
theorem generateRecommendations_spec (states : List StateData) (month : String) :
    (∀ r ∈ generateRecommendations states month,
      (r.severity = Severity.high ↔ r.expectedImpact = "~25–35% load normalization") ∧
      (r.severity = Severity.medium ↔ r.expectedImpact = "~15–20% efficiency improvement")) ∧
    (∀ (sumAll countAll sumState countState : Nat) (mf st : String) (d : DistrictData)
        (r : Recommendation),
      recOfDistrict sumAll countAll sumState countState mf st d = some r →
      (r.severity = Severity.high ↔ gtAvgMul d.totalUpdates sumAll countAll 2 1 = true)) ∧
    (generateRecommendations states month).Pairwise
      (fun a b => sevRank b.severity ≤ sevRank a.severity) ∧
    (∀ a b : Recommendation, [a, b].Sublist (producedRecs states month) →
      a.severity = b.severity →
      [a, b].Sublist (sortStable recLe (producedRecs states month))) ∧
    generateRecommendations states month =
      (sortStable recLe (producedRecs states month)).take 4 ∧
    (generateRecommendations states month).length ≤ 4 := by
  refine ⟨?_, ?_, ?_, ?_, rfl, ?_⟩
  · intro r hr
    unfold generateRecommendations at hr
    have hr2 : r ∈ sortStable recLe (producedRecs states month) :=
      (List.take_sublist 4 _).subset hr
    have hr3 : r ∈ producedRecs states month := (sortStable_perm recLe _).mem_iff.mp hr2
    obtain ⟨s, hs, d, hd, hdi, hrec⟩ := producedRecs_mem states month r hr3
    have hsev := recOfDistrict_severity _ _ _ _ _ _ _ _ hrec
    exact ⟨hsev.2.1, hsev.2.2⟩
  · intro sumAll countAll sumState countState mf st d r h
    exact (recOfDistrict_severity _ _ _ _ _ _ _ _ h).1
  · unfold generateRecommendations
    have hp := sortStable_sorted recLe recLe_total recLe_trans (producedRecs states month)
    exact List.Pairwise.sublist (List.take_sublist 4 _)
      (hp.imp fun h => of_decide_eq_true h)
  · intro a b hab hsev
    apply pair_sublist_sortStable recLe recLe_total recLe_trans hab
    unfold recLe
    rw [hsev]
    simp
  · unfold generateRecommendations
    simp [List.length_take]

/-- Witness for C6 at a concrete high-intensity district whose total exceeds twice
the average. -/
theorem generateRecommendations_spec_witness :
    recOfDistrict 100 1 100 1 "January 2024" "S" ⟨"D", "S", 250, 10, 30, 210, "x", Intensity.high⟩ =
      some ⟨Severity.high, "D, S", "January 2024",
        ["2.5× state median update volume", "Adult-heavy demographic skew"],
        ["Extended update windows", "Priority processing for biometric updates",
         "Temporary capacity expansion", "Targeted awareness campaigns"],
        "~25–35% load normalization"⟩ ∧
    ((⟨Severity.high, "D, S", "January 2024",
        ["2.5× state median update volume", "Adult-heavy demographic skew"],
        ["Extended update windows", "Priority processing for biometric updates",
         "Temporary capacity expansion", "Targeted awareness campaigns"],
        "~25–35% load normalization"⟩ : Recommendation).severity = Severity.high ↔
      gtAvgMul 250 100 1 2 1 = true) :=
  ⟨by decide,
   (generateRecommendations_spec [] "x").2.1 100 1 100 1 "January 2024" "S"
     ⟨"D", "S", 250, 10, 30, 210, "x", Intensity.high⟩
     ⟨Severity.high, "D, S", "January 2024",
       ["2.5× state median update volume", "Adult-heavy demographic skew"],
       ["Extended update windows", "Priority processing for biometric updates",
        "Temporary capacity expansion", "Targeted awareness campaigns"],
       "~25–35% load normalization"⟩ (by decide)⟩

/-! ### C10: districts with zero total -/

theorem districtAlert_all_zero (st : String) (d : DistrictData) (h0 : d.totalUpdates = 0)
    (h1 : d.age0_5 = 0) (h2 : d.age5_17 = 0) (h3 : d.age18Plus = 0) :
    districtAlert st d = none := by
  unfold districtAlert
  rw [h0, h1, h2, h3]
  rfl

/-- Counterexample for C10: a summary whose `totalUpdates` is `0` but whose child
bracket count is positive does produce an alert — the JS ratio `5 / 0` is
`Infinity`, which exceeds every threshold — so a zero-total sub-region is not
always skipped. -/
theorem getDemographicAlerts_zero_total_cex :
    (⟨"D", "S", 0, 5, 0, 0, "x", Intensity.low⟩ : DistrictData).totalUpdates = 0 ∧
    getDemographicAlerts
        [⟨"S", 5, 5, 0, 0, [⟨"D", "S", 0, 5, 0, 0, "x", Intensity.low⟩], "x", Intensity.low⟩] =
      [⟨"S", "D", "High child enrollment (Infinity%)", Severity.high⟩] := by
  exact ⟨rfl, by decide⟩

/-- C10 (amended): a sub-region whose `totalUpdates` is `0` produces no alert
provided its three bracket counts are also `0` — which the aggregation's sum
invariant guarantees for every engine-produced summary; the division by zero then
yields `NaN` for all three ratios and no threshold comparison holds.  Stated
positively: under that proviso every alert returned comes from a district with a
non-zero total. -/
theorem getDemographicAlerts_zero_total_amended (states : List StateData)
    (h : ∀ s ∈ states, ∀ d ∈ s.districts, d.totalUpdates = 0 →
      d.age0_5 = 0 ∧ d.age5_17 = 0 ∧ d.age18Plus = 0) :
    ∀ a ∈ getDemographicAlerts states, ∃ s ∈ states, ∃ d ∈ s.districts,
      d.totalUpdates ≠ 0 ∧ districtAlert s.state d = some a := by
  intro a ha
  rw [getDemographicAlerts_eq] at ha
  have ha2 : a ∈ states.flatMap fun s => s.districts.filterMap (districtAlert s.state) :=
    (List.take_sublist 5 _).subset ha
  rcases List.mem_flatMap.mp ha2 with ⟨s, hs, ha3⟩
  rcases List.mem_filterMap.mp ha3 with ⟨d, hd, hfd⟩
  refine ⟨s, hs, d, hd, ?_, hfd⟩
  intro h0
  obtain ⟨h1, h2, h3⟩ := h s hs d hd h0
  rw [districtAlert_all_zero s.state d h0 h1 h2 h3] at hfd
  cases hfd

/-- Witness for the amended C10 at a concrete summary list with no zero-total
district, instantiated at the one alert it produces. -/
theorem getDemographicAlerts_zero_total_amended_witness :
    ∃ s ∈ [(⟨"S", 1, 1, 0, 0, [⟨"D", "S", 1, 1, 0, 0, "x", Intensity.low⟩], "x",
        Intensity.low⟩ : StateData)],
      ∃ d ∈ s.districts, d.totalUpdates ≠ 0 ∧ districtAlert s.state d =
        some ⟨"S", "D", "High child enrollment (100%)", Severity.high⟩ :=
  getDemographicAlerts_zero_total_amended
    [⟨"S", 1, 1, 0, 0, [⟨"D", "S", 1, 1, 0, 0, "x", Intensity.low⟩], "x", Intensity.low⟩]
    (by decide)
    ⟨"S", "D", "High child enrollment (100%)", Severity.high⟩
    (by decide)

/-! ### C9: the parsing round trip -/

theorem toList_mk (l : List Char) : (String.mk l).toList = l := rfl

theorem dropWhile_eq_self_of_none {p : Char → Bool} :
    ∀ l : List Char, (∀ c ∈ l, p c = false) → l.dropWhile p = l := by
  intro l h
  cases l with
  | nil => rfl
  | cons x xs =>
    rw [List.dropWhile_cons, h x (List.mem_cons_self x xs)]
    simp

theorem takeWhile_eq_self_of_all {p : Char → Bool} :
    ∀ l : List Char, (∀ c ∈ l, p c = true) → l.takeWhile p = l := by
  intro l
  induction l with
  | nil => intro _; rfl
  | cons x xs ih =>
    intro h
    rw [List.takeWhile_cons, h x (List.mem_cons_self x xs)]
    simp [ih (fun c hc => h c (List.mem_cons_of_mem x hc))]

theorem dropWhile_append_of_ne {p : Char → Bool} :
    ∀ (xs ys : List Char), xs.dropWhile p ≠ [] →
      (xs ++ ys).dropWhile p = xs.dropWhile p ++ ys := by
  intro xs
  induction xs with
  | nil => intro ys h; exact absurd rfl h
  | cons x xs ih =>
    intro ys h
    cases hp : p x with
    | true =>
      rw [List.dropWhile_cons, hp] at h
      simp only [List.cons_append, List.dropWhile_cons, hp, if_true]
      simpa using ih ys (by simpa using h)
    | false =>
      simp only [List.cons_append, List.dropWhile_cons, hp, Bool.false_eq_true, if_false]

theorem trimChars_of_clean (l : List Char) (h : ∀ c ∈ l, c.isWhitespace = false) :
    trimChars l = l := by
  unfold trimChars
  rw [dropWhile_eq_self_of_none l h,
    dropWhile_eq_self_of_none l.reverse (fun c hc => h c (List.mem_reverse.mp hc)),
    List.reverse_reverse]

theorem trimChars_concat (A B : List Char) (hA : A.dropWhile Char.isWhitespace ≠ [])
    (hB : B.reverse.dropWhile Char.isWhitespace = B.reverse) (hBne : B.reverse ≠ []) :
    trimChars (A ++ B) = A.dropWhile Char.isWhitespace ++ B := by
  unfold trimChars
  rw [dropWhile_append_of_ne A B hA, List.reverse_append,
    dropWhile_append_of_ne B.reverse _ (by rw [hB]; exact hBne), hB,
    ← List.reverse_append, List.reverse_reverse]

theorem splitCh_not_mem {c : Char} : ∀ l : List Char, c ∉ l → splitCh c l = [l] := by
  intro l
  induction l with
  | nil => intro _; rfl
  | cons x xs ih =>
    intro h
    have hx : ¬ x = c := fun hcon => h (hcon ▸ List.mem_cons_self x xs)
    simp only [splitCh, if_neg hx, ih (fun hc => h (List.mem_cons_of_mem x hc))]

theorem splitCh_append {c : Char} : ∀ (xs ys : List Char), c ∉ xs →
    splitCh c (xs ++ c :: ys) = xs :: splitCh c ys := by
  intro xs
  induction xs with
  | nil =>
    intro ys _
    show splitCh c (c :: ys) = [] :: splitCh c ys
    simp [splitCh]
  | cons x xs ih =>
    intro ys h
    have hx : ¬ x = c := fun hcon => h (hcon ▸ List.mem_cons_self x xs)
    show splitCh c (x :: (xs ++ c :: ys)) = (x :: xs) :: splitCh c ys
    simp only [splitCh, if_neg hx, ih ys (fun hc => h (List.mem_cons_of_mem x hc))]

theorem parseCSVLineAux_comma : ∀ (field rest cur : List Char),
    (∀ ch ∈ field, ch ≠ ',' ∧ ch ≠ '"') →
    parseCSVLineAux (field ++ ',' :: rest) false cur =
      trimChars (cur ++ field) :: parseCSVLineAux rest false [] := by
  intro field
  induction field with
  | nil =>
    intro rest cur _
    show parseCSVLineAux (',' :: rest) false cur = _
    simp only [parseCSVLineAux]
    rw [if_neg (by decide), if_pos (by simp), List.append_nil]
  | cons ch f ih =>
    intro rest cur h
    obtain ⟨hc1, hc2⟩ := h ch (List.mem_cons_self ch f)
    show parseCSVLineAux (ch :: (f ++ ',' :: rest)) false cur = _
    simp only [parseCSVLineAux]
    rw [if_neg hc2, if_neg (by simp [hc1])]
    rw [ih rest (cur ++ [ch]) (fun x hx => h x (List.mem_cons_of_mem ch hx))]
    rw [← List.append_cons]

theorem parseCSVLineAux_last : ∀ (field cur : List Char),
    (∀ ch ∈ field, ch ≠ ',' ∧ ch ≠ '"') →
    parseCSVLineAux field false cur = [trimChars (cur ++ field)] := by
  intro field
  induction field with
  | nil =>
    intro cur _
    show parseCSVLineAux [] false cur = [trimChars (cur ++ [])]
    rw [List.append_nil]
    rfl
  | cons ch f ih =>
    intro cur h
    obtain ⟨hc1, hc2⟩ := h ch (List.mem_cons_self ch f)
    show parseCSVLineAux (ch :: f) false cur = _
    simp only [parseCSVLineAux]
    rw [if_neg hc2, if_neg (by simp [hc1])]
    rw [ih (cur ++ [ch]) (fun x hx => h x (List.mem_cons_of_mem ch hx))]
    rw [← List.append_cons]

theorem natToChars_class (n : Nat) : ∀ c ∈ natToChars n,
    c.isDigit = true ∧ c.isWhitespace = false ∧ c ≠ ',' ∧ c ≠ '"' ∧ c ≠ '\n' ∧
    c ≠ '-' ∧ c ≠ '+' := by
  intro c hc
  obtain ⟨d, hd, rfl⟩ := natToChars_digits n c hc
  obtain ⟨q1, q2, _, q4, q5, q6, q7, q8⟩ := digitChar_class d hd
  exact ⟨q1, q2, q4, q5, q6, q7, q8⟩

theorem parseIntChars_natToChars (n : Nat) : parseIntChars (natToChars n) = some (n : Int) := by
  simp only [parseIntChars]
  rw [dropWhile_eq_self_of_none _ (fun c hc => (natToChars_class n c hc).2.1)]
  rcases hnc : natToChars n with _ | ⟨c, rest⟩
  · exact absurd hnc (natToChars_ne_nil n)
  · have hcmem : c ∈ natToChars n := by rw [hnc]; exact List.mem_cons_self c rest
    have hcls := natToChars_class n c hcmem
    rw [List.headD_cons, if_neg hcls.2.2.2.2.2.1, if_neg hcls.2.2.2.2.2.2]
    simp only [digitsVal]
    have htw : (c :: rest).takeWhile Char.isDigit = c :: rest := by
      rw [← hnc]
      exact takeWhile_eq_self_of_all _ (fun x hx => (natToChars_class n x hx).1)
    rw [htw, if_neg (by simp)]
    have hdv : decimalVal (c :: rest) = n := by rw [← hnc]; exact decimalVal_natToChars n
    rw [hdv]
    rfl

theorem toList_append (s t : String) : (s ++ t).toList = s.toList ++ t.toList :=
  String.data_append s t

theorem natToString_toList (n : Nat) : (natToString n).toList = natToChars n := rfl

theorem reverse_append_natToChars (P : List Char) (n : Nat) :
    ∃ dl ds, (P ++ natToChars n).reverse = dl :: ds ∧ dl.isWhitespace = false := by
  rcases hrev : (natToChars n).reverse with _ | ⟨dl, ds⟩
  · exact absurd (List.reverse_eq_nil_iff.mp hrev) (natToChars_ne_nil n)
  · refine ⟨dl, ds ++ P.reverse, ?_, ?_⟩
    · rw [List.reverse_append, hrev]
      rfl
    · have hmem : dl ∈ natToChars n := by
        rw [← List.mem_reverse, hrev]
        exact List.mem_cons_self dl ds
      exact (natToChars_class n dl hmem).2.1

/-- C9 (amended): for a record whose period, region and sub-region fields contain no
comma, double quote or newline, parsing a (not all-whitespace, newline-free) header
line followed by the comma-joined CSV line built from the record yields exactly one
record: its three bracket counts equal the originals, and its region and
sub-region names equal `normalizeCase` — lower-casing, then capitalizing the first
character of each space-separated word — applied to the **trimmed** originals
(the parser trims each field, so edge whitespace of a name does not survive,
which is the one correction to the claim as stated). -/
theorem parseCSV_roundTrip (header month state district : String) (n1 n2 n3 : Nat)
    (hh1 : ('\n' : Char) ∉ header.toList)
    (hh2 : header.toList.dropWhile Char.isWhitespace ≠ [])
    (hm : ∀ ch ∈ month.toList, ch ≠ ',' ∧ ch ≠ '"' ∧ ch ≠ '\n')
    (hst : ∀ ch ∈ state.toList, ch ≠ ',' ∧ ch ≠ '"' ∧ ch ≠ '\n')
    (hdi : ∀ ch ∈ district.toList, ch ≠ ',' ∧ ch ≠ '"' ∧ ch ≠ '\n') :
    parseCSV (header ++ "\n" ++ month ++ "," ++ state ++ "," ++ district ++ "," ++
        natToString n1 ++ "," ++ natToString n2 ++ "," ++ natToString n3) =
      [{ Month := String.mk (trimChars month.toList),
         State := normalizeCase (String.mk (trimChars state.toList)),
         District := normalizeCase (String.mk (trimChars district.toList)),
         Age_0_5 := some (n1 : Int),
         Age_5_17 := some (n2 : Int),
         Age_18_plus := some (n3 : Int) }] := by
  have hTextList : (header ++ "\n" ++ month ++ "," ++ state ++ "," ++ district ++ "," ++
      natToString n1 ++ "," ++ natToString n2 ++ "," ++ natToString n3).toList =
      header.toList ++ '\n' :: (month.toList ++ ',' :: (state.toList ++ ',' ::
        (district.toList ++ ',' :: (natToChars n1 ++ ',' ::
          (natToChars n2 ++ ',' :: natToChars n3))))) := by
    simp only [toList_append, natToString_toList]
    rw [show ("\n" : String).toList = ['\n'] from rfl, show ("," : String).toList = [','] from rfl]
    simp
  have hLP : month.toList ++ ',' :: (state.toList ++ ',' :: (district.toList ++ ',' ::
      (natToChars n1 ++ ',' :: (natToChars n2 ++ ',' :: natToChars n3)))) =
      (month.toList ++ ',' :: (state.toList ++ ',' :: (district.toList ++ ',' ::
        (natToChars n1 ++ ',' :: (natToChars n2 ++ [',']))))) ++ natToChars n3 := by
    simp
  obtain ⟨dl, ds, hds, hdl⟩ := reverse_append_natToChars
    (month.toList ++ ',' :: (state.toList ++ ',' :: (district.toList ++ ',' ::
      (natToChars n1 ++ ',' :: (natToChars n2 ++ [',']))))) n3
  have htrim : trimChars (header.toList ++ '\n' :: (month.toList ++ ',' ::
      (state.toList ++ ',' :: (district.toList ++ ',' :: (natToChars n1 ++ ',' ::
        (natToChars n2 ++ ',' :: natToChars n3)))))) =
      header.toList.dropWhile Char.isWhitespace ++ '\n' :: (month.toList ++ ',' ::
      (state.toList ++ ',' :: (district.toList ++ ',' :: (natToChars n1 ++ ',' ::
        (natToChars n2 ++ ',' :: natToChars n3))))) := by
    apply trimChars_concat _ _ hh2
    · rw [List.reverse_cons, hLP, hds]
      show List.dropWhile Char.isWhitespace (dl :: (ds ++ ['\n'])) = dl :: (ds ++ ['\n'])
      rw [List.dropWhile_cons, hdl]
      simp
    · rw [List.reverse_cons, hLP, hds]
      simp
  have hnL : ('\n' : Char) ∉ month.toList ++ ',' :: (state.toList ++ ',' ::
      (district.toList ++ ',' :: (natToChars n1 ++ ',' ::
        (natToChars n2 ++ ',' :: natToChars n3)))) := by
    intro hc
    simp only [List.mem_append, List.mem_cons] at hc
    rcases hc with h | h | h | h | h | h | h | h | h | h | h
    · exact (hm _ h).2.2 rfl
    · exact absurd h (by decide)
    · exact (hst _ h).2.2 rfl
    · exact absurd h (by decide)
    · exact (hdi _ h).2.2 rfl
    · exact absurd h (by decide)
    · exact (natToChars_class n1 _ h).2.2.2.2.1 rfl
    · exact absurd h (by decide)
    · exact (natToChars_class n2 _ h).2.2.2.2.1 rfl
    · exact absurd h (by decide)
    · exact (natToChars_class n3 _ h).2.2.2.2.1 rfl
  have hH : ('\n' : Char) ∉ header.toList.dropWhile Char.isWhitespace :=
    fun hc => hh1 ((List.dropWhile_sublist _).subset hc)
  have hfields : parseCSVLineAux (month.toList ++ ',' :: (state.toList ++ ',' ::
      (district.toList ++ ',' :: (natToChars n1 ++ ',' ::
        (natToChars n2 ++ ',' :: natToChars n3))))) false [] =
      [trimChars month.toList, trimChars state.toList, trimChars district.toList,
       natToChars n1, natToChars n2, natToChars n3] := by
    rw [parseCSVLineAux_comma month.toList _ [] (fun ch hc => ⟨(hm ch hc).1, (hm ch hc).2.1⟩),
      parseCSVLineAux_comma state.toList _ [] (fun ch hc => ⟨(hst ch hc).1, (hst ch hc).2.1⟩),
      parseCSVLineAux_comma district.toList _ [] (fun ch hc => ⟨(hdi ch hc).1, (hdi ch hc).2.1⟩),
      parseCSVLineAux_comma (natToChars n1) _ []
        (fun ch hc => ⟨(natToChars_class n1 ch hc).2.2.1, (natToChars_class n1 ch hc).2.2.2.1⟩),
      parseCSVLineAux_comma (natToChars n2) _ []
        (fun ch hc => ⟨(natToChars_class n2 ch hc).2.2.1, (natToChars_class n2 ch hc).2.2.2.1⟩),
      parseCSVLineAux_last (natToChars n3) []
        (fun ch hc => ⟨(natToChars_class n3 ch hc).2.2.1, (natToChars_class n3 ch hc).2.2.2.1⟩)]
    simp only [List.nil_append]
    rw [trimChars_of_clean (natToChars n1) (fun ch hc => (natToChars_class n1 ch hc).2.1),
      trimChars_of_clean (natToChars n2) (fun ch hc => (natToChars_class n2 ch hc).2.1),
      trimChars_of_clean (natToChars n3) (fun ch hc => (natToChars_class n3 ch hc).2.1)]
  simp only [parseCSV]
  rw [hTextList, htrim, splitCh_append _ _ hH, splitCh_not_mem _ hnL]
  simp only [List.drop_succ_cons, List.drop_zero, List.map_cons, List.map_nil]
  rw [hfields]
  simp only [List.map_cons, List.map_nil, List.getD_cons_zero, List.getD_cons_succ]
  simp only [parseIntJS, toList_mk, parseIntChars_natToChars]

/-- Witness for the amended C9 at a concrete record. -/
theorem parseCSV_roundTrip_witness :
    parseCSV ("Month,State,District,A,B,C" ++ "\n" ++ "2024-01" ++ "," ++ "uttar PRADESH" ++
        "," ++ "agra" ++ "," ++ natToString 10 ++ "," ++ natToString 20 ++ "," ++
        natToString 30) =
      [{ Month := String.mk (trimChars ("2024-01" : String).toList),
         State := normalizeCase (String.mk (trimChars ("uttar PRADESH" : String).toList)),
         District := normalizeCase (String.mk (trimChars ("agra" : String).toList)),
         Age_0_5 := some (10 : Int),
         Age_5_17 := some (20 : Int),
         Age_18_plus := some (30 : Int) }] :=
  parseCSV_roundTrip "Month,State,District,A,B,C" "2024-01" "uttar PRADESH" "agra" 10 20 30
    (by decide) (by decide) (by decide) (by decide) (by decide)

/-- Counterexample for C9 as stated: a region field with trailing whitespace.  For
the record `("2024-01", "pune ", "bombay", 1, 2, 3)` — whose fields contain no
comma, double quote or newline — the parsed region name is `"Pune"` (the parser
trims the field before normalizing), while the claim requires it to equal the
normalization of the original `"pune "`, which is `"Pune "`. -/
theorem parseCSV_roundTrip_cex :
    (parseCSV "Month,State,District,A,B,C\n2024-01,pune ,bombay,1,2,3").map (·.State) =
      ["Pune"] ∧
    normalizeCase "pune " = "Pune " ∧
    ("Pune" : String) ≠ "Pune " := by
  refine ⟨by decide, by decide, by decide⟩

end Pehchaan
